import Mathlib

/-!
# Verification of the calendar-heatmap core (`src/utils/dataProcessor.ts`,
# `src/components/CalendarHeatmapPanel.tsx`)

Shallow embedding of the data pipeline of the Grafana calendar-heatmap panel:
JS numbers are modelled as exact rationals (`ℚ`, with the non-finite values
`NaN`/`±Infinity` made explicit where the code tests `Number.isFinite`),
`Math.round` as `⌊x + 1/2⌋` (ECMAScript rounds half toward `+∞`),
`Math.ceil` as `⌈·⌉`, and a JS object used as a numeric-keyed record as an
association list in which assignment replaces an existing key in place and
otherwise appends.
-/

/-- A JS number as consumed by `parseStrictCustomBuckets` / `getColorPalette`:
either a finite value (modelled exactly as a rational) or one of the
non-finite values `NaN`, `Infinity`, `-Infinity`. -/
inductive JSNum where
  | nan : JSNum
  | inf : JSNum
  | ninf : JSNum
  | fin : ℚ → JSNum
deriving DecidableEq

/-- `Number.isFinite`. -/
def JSNum.isFinite : JSNum → Bool
  | .fin _ => true
  | _ => false

/-- Numeric value of a finite JS number; only read behind an `isFinite` guard
(the code early-returns on any non-finite entry before using the values). -/
def JSNum.toQ : JSNum → ℚ
  | .fin q => q
  | _ => 0

/-- `Math.round` (ECMAScript: round half toward positive infinity). -/
def jsRound (x : ℚ) : ℤ := ⌊x + 1/2⌋

/-- The loop `for i in 1..: if (!(nums[i] > nums[i-1])) return null` of
`parseStrictCustomBuckets`, as a boolean predicate. -/
def strictlyIncreasing : List ℚ → Bool
  | a :: b :: t => decide (b > a) && strictlyIncreasing (b :: t)
  | _ => true

/-- `parseStrictCustomBuckets` (dataProcessor.ts:156-182).  The raw string has
already been cut into tokens (`split(',')`, `trim`, drop empties) and each
token passed through JS `Number(·)`; the resulting token values are the input
here, so JS numeric-literal parsing is taken as primitive.  Accepts only
4 finite numbers, starting at 0, strictly increasing. -/
def parseStrictCustomBuckets (parts : List JSNum) : Option (List ℚ) :=
  if parts.length ≠ 4 then none
  else if parts.any (fun n => ! n.isFinite) then none
  else
    let nums := parts.map JSNum.toQ
    if nums.headD 0 ≠ 0 then none
    else if ! strictlyIncreasing nums then none
    else some nums

/-- A `Record<number, string>` threshold table: key order is first-assignment
order (the order in which the code assigns the empty level and then color
levels 1..4). -/
abbrev ColorTable := List (ℚ × String)

/-- JS object assignment `palette[k] = c`: if the key already exists its value
is replaced in place, otherwise the pair is appended. -/
def setKey (t : ColorTable) (k : ℚ) (c : String) : ColorTable :=
  if t.any (fun p => p.1 = k) then t.map (fun p => if p.1 = k then (k, c) else p)
  else t ++ [(k, c)]

/-- `MIN_COLORED_VALUE` (dataProcessor.ts:152): blank is `[0, 0.01)`. -/
def MIN_COLORED_VALUE : ℚ := 1/100

/-- `MIN_EPS` (dataProcessor.ts:154). -/
def MIN_EPS : ℚ := 1/10^12

/-- `Number.MAX_SAFE_INTEGER`. -/
def MAX_SAFE_INTEGER : ℚ := 9007199254740991

/-- `BucketMode` (dataProcessor.ts:149). -/
inductive BucketMode where
  | auto : BucketMode
  | custom : BucketMode
deriving DecidableEq

/-- One iteration of the AUTO-mode loop (dataProcessor.ts:295-306): the
accumulator carries the palette so far and `prev`; the element carries the
quantile and the color level assigned at this step. -/
def autoStep (safeMax : ℤ) (acc : ColorTable × ℚ) (ql : ℚ × String) : ColorTable × ℚ :=
  let cutoff : ℤ := jsRound ((safeMax : ℚ) * ql.1)
  let upper : ℚ := max (acc.2 + 1) (max 2 ((cutoff : ℚ) + 1))
  (setKey acc.1 upper ql.2, upper)

/-- The base thresholds of `getColorPalette` (dataProcessor.ts:251-255):
`{0: empty, min: empty, min+eps: level1}`. -/
def basePalette (emptyColor l0 : String) : ColorTable :=
  [(0, emptyColor), (MIN_COLORED_VALUE, emptyColor), (MIN_COLORED_VALUE + MIN_EPS, l0)]

/-- `Number.isFinite(maxCount) ? Math.max(0, Math.ceil(maxCount)) : 0`
(dataProcessor.ts:287). -/
def safeMaxOf (maxCount : JSNum) : ℤ :=
  match maxCount with
  | .fin q => Max.max 0 ⌈q⌉
  | _ => 0

/-- The AUTO-mode branch of `getColorPalette` (dataProcessor.ts:282-308):
quantile loop over `[0.25, 0.5, 0.75, 1]` starting from the base thresholds
with `prev = min + eps`. -/
def autoPalette (emptyColor l0 l1 l2 l3 : String) (maxCount : JSNum) : ColorTable :=
  ([((1:ℚ)/4, l0), ((1:ℚ)/2, l1), ((3:ℚ)/4, l2), ((1:ℚ), l3)].foldl
    (autoStep (safeMaxOf maxCount)) (basePalette emptyColor l0, MIN_COLORED_VALUE + MIN_EPS)).1

/-- The valid-custom-buckets branch of `getColorPalette`
(dataProcessor.ts:263-278), given the parsed edges `[0, b1, b2, b3]`. -/
def customPalette (emptyColor l0 l1 l2 l3 : String) (edges : List ℚ) : ColorTable :=
  let b1 := edges.getD 1 0
  let b2 := edges.getD 2 0
  let b3 := edges.getD 3 0
  let firstUpper := max b1 (MIN_COLORED_VALUE + MIN_EPS)
  setKey (setKey (setKey (setKey (basePalette emptyColor l0) firstUpper l0) b2 l1) b3 l2)
    MAX_SAFE_INTEGER l3

/-- `getColorPalette` (dataProcessor.ts:237-309).  The color resolution
(`resolveColorLevels`) is kept abstract: the claims quantify over arbitrary
resolved levels, so the empty color and the four color levels are passed in
directly in place of `(scheme, theme, customColor)`. -/
def getColorPalette (emptyColor l0 l1 l2 l3 : String) (maxCount : JSNum)
    (bucketMode : BucketMode) (customBuckets : List JSNum) : ColorTable :=
  match bucketMode with
  | .custom =>
    match parseStrictCustomBuckets customBuckets with
    | none => autoPalette emptyColor l0 l1 l2 l3 maxCount
    | some edges => customPalette emptyColor l0 l1 l2 l3 edges
  | .auto => autoPalette emptyColor l0 l1 l2 l3 maxCount

/-- One step of the renderer's threshold scan: keep the best (smallest)
strictly-greater key seen so far. -/
def selStep (v : ℚ) (best : Option (ℚ × String)) (p : ℚ × String) : Option (ℚ × String) :=
  match best with
  | none => if v < p.1 then some p else none
  | some q => if v < p.1 ∧ p.1 < q.1 then some p else some q

/-- Renderer contract of `@uiw/react-heat-map`: given a value, select the
color at the smallest key strictly greater than the value. -/
def selectColor (t : ColorTable) (v : ℚ) : Option String :=
  (t.foldl (selStep v) none).map Prod.snd

/-- A key not above the value is skipped when no candidate is held. -/
theorem selStep_none_neg {v k : ℚ} {c : String} (h : ¬ v < k) :
    selStep v none (k, c) = none := by simp [selStep, h]

/-- The first key above the value becomes the candidate. -/
theorem selStep_none_pos {v k : ℚ} {c : String} (h : v < k) :
    selStep v none (k, c) = some (k, c) := by simp [selStep, h]

/-- A key that does not improve the candidate is ignored. -/
theorem selStep_some_keep {v k k' : ℚ} {c c' : String} (h : ¬ (v < k ∧ k < k')) :
    selStep v (some (k', c')) (k, c) = some (k', c') := by simp [selStep, h]

/-- A strictly smaller key above the value replaces the candidate. -/
theorem selStep_some_take {v k k' : ℚ} {c c' : String} (h : v < k ∧ k < k') :
    selStep v (some (k', c')) (k, c) = some (k, c) := by simp [selStep, h]

/-- The table built for custom buckets `0,1,2,9`, with symbolic colors. -/
theorem palette_edges_0129 (emptyColor l0 l1 l2 l3 : String) (mc : JSNum) :
    getColorPalette emptyColor l0 l1 l2 l3 mc .custom [.fin 0, .fin 1, .fin 2, .fin 9]
      = [(0, emptyColor), (1/100, emptyColor), (1/100 + 1/10^12, l0), (1, l0),
         (2, l1), (9, l2), (9007199254740991, l3)] := by
  have hparse : parseStrictCustomBuckets [.fin 0, .fin 1, .fin 2, .fin 9]
      = some [0, 1, 2, 9] := by with_unfolding_all decide
  simp only [getColorPalette, hparse, customPalette, basePalette,
    MIN_COLORED_VALUE, MIN_EPS, MAX_SAFE_INTEGER,
    List.getD_cons_succ, List.getD_cons_zero, setKey, List.any_cons, List.any_nil]
  norm_num [max_def]

/-- C1 counterexample: for custom buckets `0,1,2,9` the value `0.5` does NOT
get the empty color — the smallest key strictly above `0.5` is the edge `1`,
which holds the first colored level. -/
theorem C1_counterexample :
    selectColor
      (getColorPalette "empty" "c1" "c2" "c3" "c4" (.fin 20) .custom
        [.fin 0, .fin 1, .fin 2, .fin 9]) (1/2) = some "c1"
    ∧ "c1" ≠ "empty" := by
  rw [palette_edges_0129]
  refine ⟨?_, by decide⟩
  rw [selectColor, List.foldl_cons, selStep_none_neg (by norm_num),
    List.foldl_cons, selStep_none_neg (by norm_num),
    List.foldl_cons, selStep_none_neg (by norm_num),
    List.foldl_cons, selStep_none_pos (by norm_num),
    List.foldl_cons, selStep_some_keep (by norm_num),
    List.foldl_cons, selStep_some_keep (by norm_num),
    List.foldl_cons, selStep_some_keep (by norm_num), List.foldl_nil]
  rfl

/-- C1 (amended): for bucketMode custom with edges `0,1,2,9` (any resolved
colors, any maxCount), the renderer contract assigns value 0.5 the FIRST
colored level, 1.5 the second, 5 the third, and 20 the fourth. -/
theorem C1_custom_bucket_selection (emptyColor l0 l1 l2 l3 : String) (mc : JSNum) :
    selectColor (getColorPalette emptyColor l0 l1 l2 l3 mc .custom
        [.fin 0, .fin 1, .fin 2, .fin 9]) (1/2) = some l0
    ∧ selectColor (getColorPalette emptyColor l0 l1 l2 l3 mc .custom
        [.fin 0, .fin 1, .fin 2, .fin 9]) (3/2) = some l1
    ∧ selectColor (getColorPalette emptyColor l0 l1 l2 l3 mc .custom
        [.fin 0, .fin 1, .fin 2, .fin 9]) 5 = some l2
    ∧ selectColor (getColorPalette emptyColor l0 l1 l2 l3 mc .custom
        [.fin 0, .fin 1, .fin 2, .fin 9]) 20 = some l3 := by
  rw [palette_edges_0129]
  refine ⟨?_, ?_, ?_, ?_⟩
  · rw [selectColor, List.foldl_cons, selStep_none_neg (by norm_num),
      List.foldl_cons, selStep_none_neg (by norm_num),
      List.foldl_cons, selStep_none_neg (by norm_num),
      List.foldl_cons, selStep_none_pos (by norm_num),
      List.foldl_cons, selStep_some_keep (by norm_num),
      List.foldl_cons, selStep_some_keep (by norm_num),
      List.foldl_cons, selStep_some_keep (by norm_num), List.foldl_nil]
    rfl
  · rw [selectColor, List.foldl_cons, selStep_none_neg (by norm_num),
      List.foldl_cons, selStep_none_neg (by norm_num),
      List.foldl_cons, selStep_none_neg (by norm_num),
      List.foldl_cons, selStep_none_neg (by norm_num),
      List.foldl_cons, selStep_none_pos (by norm_num),
      List.foldl_cons, selStep_some_keep (by norm_num),
      List.foldl_cons, selStep_some_keep (by norm_num), List.foldl_nil]
    rfl
  · rw [selectColor, List.foldl_cons, selStep_none_neg (by norm_num),
      List.foldl_cons, selStep_none_neg (by norm_num),
      List.foldl_cons, selStep_none_neg (by norm_num),
      List.foldl_cons, selStep_none_neg (by norm_num),
      List.foldl_cons, selStep_none_neg (by norm_num),
      List.foldl_cons, selStep_none_pos (by norm_num),
      List.foldl_cons, selStep_some_keep (by norm_num), List.foldl_nil]
    rfl
  · rw [selectColor, List.foldl_cons, selStep_none_neg (by norm_num),
      List.foldl_cons, selStep_none_neg (by norm_num),
      List.foldl_cons, selStep_none_neg (by norm_num),
      List.foldl_cons, selStep_none_neg (by norm_num),
      List.foldl_cons, selStep_none_neg (by norm_num),
      List.foldl_cons, selStep_none_neg (by norm_num),
      List.foldl_cons, selStep_none_pos (by norm_num), List.foldl_nil]
    rfl

/-- A JS number is finite exactly when it carries a rational value. -/
theorem JSNum.isFinite_iff (n : JSNum) : n.isFinite = true ↔ ∃ q, n = .fin q := by
  cases n <;> simp [JSNum.isFinite]

/-- C9: a token list is accepted by `parseStrictCustomBuckets` exactly when it
is 4 finite numbers starting at 0 and strictly increasing; and whenever it is
rejected, `getColorPalette` in custom mode produces exactly the auto-mode
table for the same colors and maxCount. -/
theorem C9_custom_bucket_fallback (parts : List JSNum)
    (emptyColor l0 l1 l2 l3 : String) (mc : JSNum) :
    ((∃ l, parseStrictCustomBuckets parts = some l) ↔
      (∃ b1 b2 b3 : ℚ, parts = [.fin 0, .fin b1, .fin b2, .fin b3]
        ∧ 0 < b1 ∧ b1 < b2 ∧ b2 < b3))
    ∧ (parseStrictCustomBuckets parts = none →
        getColorPalette emptyColor l0 l1 l2 l3 mc .custom parts
          = getColorPalette emptyColor l0 l1 l2 l3 mc .auto parts) := by
  constructor
  · constructor
    · rintro ⟨l, hl⟩
      match parts with
      | [a, b, c, d] =>
        simp only [parseStrictCustomBuckets] at hl
        split at hl
        · exact absurd hl (by simp)
        · split at hl
          · exact absurd hl (by simp)
          · rename_i hlen hfin
            simp only [List.any_eq_true, Bool.not_eq_true'] at hfin
            push_neg at hfin
            obtain ⟨qa, rfl⟩ := (JSNum.isFinite_iff a).1 (by simpa using hfin a (by simp))
            obtain ⟨qb, rfl⟩ := (JSNum.isFinite_iff b).1 (by simpa using hfin b (by simp))
            obtain ⟨qc, rfl⟩ := (JSNum.isFinite_iff c).1 (by simpa using hfin c (by simp))
            obtain ⟨qd, rfl⟩ := (JSNum.isFinite_iff d).1 (by simpa using hfin d (by simp))
            simp only [List.map_cons, List.map_nil, JSNum.toQ, List.headD_cons] at hl
            split at hl
            · exact absurd hl (by simp)
            · split at hl
              · exact absurd hl (by simp)
              · rename_i hzero hinc
                simp only [ne_eq, Decidable.not_not] at hzero
                simp only [Bool.not_eq_true', Bool.not_eq_false] at hinc
                simp only [strictlyIncreasing, Bool.and_eq_true, decide_eq_true_eq] at hinc
                exact ⟨qb, qc, qd, by rw [hzero], by rw [← hzero]; exact hinc.1,
                  hinc.2.1, hinc.2.2.1⟩
      | [] => simp [parseStrictCustomBuckets] at hl
      | [_] => simp [parseStrictCustomBuckets] at hl
      | [_, _] => simp [parseStrictCustomBuckets] at hl
      | [_, _, _] => simp [parseStrictCustomBuckets] at hl
      | _ :: _ :: _ :: _ :: _ :: _ => simp [parseStrictCustomBuckets] at hl
    · rintro ⟨b1, b2, b3, rfl, h1, h2, h3⟩
      refine ⟨[0, b1, b2, b3], ?_⟩
      simp [parseStrictCustomBuckets, JSNum.isFinite, JSNum.toQ, strictlyIncreasing,
        h1, h2, h3]
  · intro h
    simp only [getColorPalette, h]

/-- Witness for C9 at the spec's example `"1,2,3,4"` (does not start at 0). -/
theorem C9_custom_bucket_fallback_witness :
    parseStrictCustomBuckets [.fin 1, .fin 2, .fin 3, .fin 4] = none
    ∧ getColorPalette "e" "a" "b" "c" "d" (.fin 10) .custom [.fin 1, .fin 2, .fin 3, .fin 4]
      = getColorPalette "e" "a" "b" "c" "d" (.fin 10) .auto [.fin 1, .fin 2, .fin 3, .fin 4] :=
  ⟨by with_unfolding_all decide,
   (C9_custom_bucket_fallback [.fin 1, .fin 2, .fin 3, .fin 4] "e" "a" "b" "c" "d"
      (.fin 10)).2 (by with_unfolding_all decide)⟩

/-- Keys of a palette table, in assignment order. -/
def tableKeys (t : ColorTable) : List ℚ := t.map Prod.fst

/-- Assigning a fresh key appends it to the table. -/
theorem setKey_append {t : ColorTable} {k : ℚ} {c : String} (h : ∀ p ∈ t, p.1 ≠ k) :
    setKey t k c = t ++ [(k, c)] := by
  simp only [setKey, List.any_eq_true, decide_eq_true_eq]
  rw [if_neg]
  rintro ⟨p, hp, hpk⟩
  exact h p hp hpk

/-- `setKey_append` with explicit arguments, for directed rewriting. -/
theorem setKey_append_ex (t : ColorTable) (k : ℚ) (c : String) (h : ∀ p ∈ t, p.1 ≠ k) :
    setKey t k c = t ++ [(k, c)] := setKey_append h

/-- Assigning an existing key leaves the key list unchanged. -/
theorem setKey_keys_of_mem {t : ColorTable} {k : ℚ} {c : String}
    (h : t.any (fun p => p.1 = k) = true) :
    tableKeys (setKey t k c) = tableKeys t := by
  simp only [setKey, h, if_true, tableKeys, List.map_map]
  refine List.map_congr_left (fun p hp => ?_)
  by_cases hpk : p.1 = k
  · simp [hpk]
  · simp [hpk]

/-- One AUTO-loop step on a table bounded by `prev` appends the new exclusive
upper bound. -/
theorem autoStep_eq (sf : ℤ) (t : ColorTable) (prev : ℚ) (ql : ℚ × String)
    (hb : ∀ p ∈ t, p.1 ≤ prev) :
    autoStep sf (t, prev) ql =
      (t ++ [(max (prev + 1) (max 2 ((jsRound ((sf : ℚ) * ql.1) : ℚ) + 1)), ql.2)],
        max (prev + 1) (max 2 ((jsRound ((sf : ℚ) * ql.1) : ℚ) + 1))) := by
  simp only [autoStep]
  rw [setKey_append]
  intro p hp
  exact ne_of_lt (lt_of_le_of_lt (hb p hp)
    (lt_of_lt_of_le (lt_add_one prev) (le_max_left _ _)))

/-- The AUTO loop preserves strict monotonicity of the key list. -/
theorem autoLoop_keys (sf : ℤ) (qls : List (ℚ × String)) :
    ∀ (t : ColorTable) (prev : ℚ),
      (tableKeys t).Pairwise (· < ·) → (∀ p ∈ t, p.1 ≤ prev) →
      (tableKeys ((qls.foldl (autoStep sf) (t, prev)).1)).Pairwise (· < ·) := by
  induction qls with
  | nil => intro t prev hp _; simpa using hp
  | cons ql rest ih =>
    intro t prev hp hb
    rw [List.foldl_cons, autoStep_eq sf t prev ql hb]
    have hlt : ∀ p ∈ t, p.1 < max (prev + 1) (max 2 ((jsRound ((sf : ℚ) * ql.1) : ℚ) + 1)) :=
      fun p hp' => lt_of_le_of_lt (hb p hp')
        (lt_of_lt_of_le (lt_add_one prev) (le_max_left _ _))
    apply ih
    · simp only [tableKeys, List.map_append, List.map_cons, List.map_nil]
      rw [List.pairwise_append]
      refine ⟨hp, List.pairwise_singleton _ _, ?_⟩
      intro a ha b hbm
      simp only [List.mem_singleton] at hbm
      subst hbm
      obtain ⟨p, hpmem, rfl⟩ := List.mem_map.1 ha
      exact hlt p hpmem
    · intro p hp'
      rcases List.mem_append.1 hp' with h | h
      · exact le_of_lt (hlt p h)
      · simp only [List.mem_singleton] at h
        subst h
        exact le_refl _

/-- Every key of the base thresholds is at most `min + eps`. -/
theorem basePalette_bound (E l0 : String) :
    ∀ p ∈ basePalette E l0, p.1 ≤ MIN_COLORED_VALUE + MIN_EPS := by
  intro p hp
  simp only [basePalette, List.mem_cons, List.not_mem_nil, or_false] at hp
  rcases hp with rfl | rfl | rfl <;>
    norm_num [MIN_COLORED_VALUE, MIN_EPS]

/-- The base thresholds have strictly increasing keys. -/
theorem basePalette_keys (E l0 : String) :
    (tableKeys (basePalette E l0)).Pairwise (· < ·) := by
  norm_num [tableKeys, basePalette, MIN_COLORED_VALUE, MIN_EPS, List.pairwise_cons]

/-- AUTO-mode tables have strictly increasing keys for every maxCount. -/
theorem autoPalette_keys (E l0 l1 l2 l3 : String) (mc : JSNum) :
    (tableKeys (autoPalette E l0 l1 l2 l3 mc)).Pairwise (· < ·) := by
  exact autoLoop_keys _ _ _ _ (basePalette_keys E l0) (basePalette_bound E l0)

/-- Re-assigning the `min + eps` key of the base thresholds to the same first
color level leaves the table unchanged. -/
theorem setKey_base_eps (E l0 : String) :
    setKey (basePalette E l0) (MIN_COLORED_VALUE + MIN_EPS) l0 = basePalette E l0 := by
  simp only [setKey, basePalette, List.any_cons, List.any_nil, List.map_cons, List.map_nil]
  norm_num [MIN_COLORED_VALUE, MIN_EPS]

/-- Custom-mode tables have strictly increasing keys whenever the second edge
clears the empty/colored boundary and the third does not exceed
`Number.MAX_SAFE_INTEGER`. -/
theorem customPalette_keys (E l0 l1 l2 l3 : String) (b1 b2 b3 : ℚ)
    (h2 : b1 < b2) (h3 : b2 < b3)
    (hb2 : MIN_COLORED_VALUE + MIN_EPS < b2) (hb3 : b3 ≤ MAX_SAFE_INTEGER) :
    (tableKeys (customPalette E l0 l1 l2 l3 [0, b1, b2, b3])).Pairwise (· < ·) := by
  have hmsi : MIN_COLORED_VALUE + MIN_EPS < MAX_SAFE_INTEGER := by
    norm_num [MIN_COLORED_VALUE, MIN_EPS, MAX_SAFE_INTEGER]
  simp only [customPalette, List.getD_cons_succ, List.getD_cons_zero]
  by_cases hA : MIN_COLORED_VALUE + MIN_EPS < b1
  · rw [max_eq_left (le_of_lt hA)]
    rw [setKey_append (fun p hp => ne_of_lt (lt_of_le_of_lt (basePalette_bound E l0 p hp) hA))]
    have hlt1 : ∀ p ∈ basePalette E l0 ++ [(b1, l0)], p.1 < b2 := by
      intro p hp
      rcases List.mem_append.1 hp with h | h
      · exact lt_of_le_of_lt (basePalette_bound E l0 p h) (lt_trans hA h2)
      · simp only [List.mem_singleton] at h; subst h; exact h2
    rw [setKey_append (fun p hp => ne_of_lt (hlt1 p hp))]
    have hlt2 : ∀ p ∈ basePalette E l0 ++ [(b1, l0)] ++ [(b2, l1)], p.1 < b3 := by
      intro p hp
      rcases List.mem_append.1 hp with h | h
      · exact lt_trans (hlt1 p h) h3
      · simp only [List.mem_singleton] at h; subst h; exact h3
    rw [setKey_append (fun p hp => ne_of_lt (hlt2 p hp))]
    rcases lt_or_eq_of_le hb3 with hb3lt | hb3eq
    · have hlt3 : ∀ p ∈ basePalette E l0 ++ [(b1, l0)] ++ [(b2, l1)] ++ [(b3, l2)],
          p.1 < MAX_SAFE_INTEGER := by
        intro p hp
        rcases List.mem_append.1 hp with h | h
        · exact lt_trans (hlt2 p h) hb3lt
        · simp only [List.mem_singleton] at h; subst h; exact hb3lt
      rw [setKey_append (fun p hp => ne_of_lt (hlt3 p hp))]
      simp only [tableKeys, basePalette, List.map_append, List.map_cons, List.map_nil,
        List.cons_append, List.nil_append]
      rw [← List.chain'_iff_pairwise]
      simp only [List.chain'_cons, List.chain'_singleton, and_true]
      exact ⟨by norm_num [MIN_COLORED_VALUE], by norm_num [MIN_COLORED_VALUE, MIN_EPS],
        hA, h2, h3, hb3lt⟩
    · rw [setKey_keys_of_mem (by subst hb3eq; simp)]
      simp only [tableKeys, basePalette, List.map_append, List.map_cons, List.map_nil,
        List.cons_append, List.nil_append]
      rw [← List.chain'_iff_pairwise]
      simp only [List.chain'_cons, List.chain'_singleton, and_true]
      exact ⟨by norm_num [MIN_COLORED_VALUE], by norm_num [MIN_COLORED_VALUE, MIN_EPS],
        hA, h2, h3⟩
  · rw [max_eq_right (le_of_not_lt hA)]
    rw [setKey_base_eps]
    rw [setKey_append (fun p hp => ne_of_lt (lt_of_le_of_lt (basePalette_bound E l0 p hp) hb2))]
    have hlt2 : ∀ p ∈ basePalette E l0 ++ [(b2, l1)], p.1 < b3 := by
      intro p hp
      rcases List.mem_append.1 hp with h | h
      · exact lt_of_le_of_lt (basePalette_bound E l0 p h) (lt_trans hb2 h3)
      · simp only [List.mem_singleton] at h; subst h; exact h3
    rw [setKey_append (fun p hp => ne_of_lt (hlt2 p hp))]
    rcases lt_or_eq_of_le hb3 with hb3lt | hb3eq
    · have hlt3 : ∀ p ∈ basePalette E l0 ++ [(b2, l1)] ++ [(b3, l2)],
          p.1 < MAX_SAFE_INTEGER := by
        intro p hp
        rcases List.mem_append.1 hp with h | h
        · exact lt_trans (hlt2 p h) hb3lt
        · simp only [List.mem_singleton] at h; subst h; exact hb3lt
      rw [setKey_append (fun p hp => ne_of_lt (hlt3 p hp))]
      simp only [tableKeys, basePalette, List.map_append, List.map_cons, List.map_nil,
        List.cons_append, List.nil_append]
      rw [← List.chain'_iff_pairwise]
      simp only [List.chain'_cons, List.chain'_singleton, and_true]
      exact ⟨by norm_num [MIN_COLORED_VALUE], by norm_num [MIN_COLORED_VALUE, MIN_EPS],
        hb2, h3, hb3lt⟩
    · rw [setKey_keys_of_mem (by subst hb3eq; simp)]
      simp only [tableKeys, basePalette, List.map_append, List.map_cons, List.map_nil,
        List.cons_append, List.nil_append]
      rw [← List.chain'_iff_pairwise]
      simp only [List.chain'_cons, List.chain'_singleton, and_true]
      exact ⟨by norm_num [MIN_COLORED_VALUE], by norm_num [MIN_COLORED_VALUE, MIN_EPS],
        hb2, h3⟩

/-- Valid edge tokens parse to their numeric list. -/
theorem parse_some_of (b1 b2 b3 : ℚ) (h1 : 0 < b1) (h2 : b1 < b2) (h3 : b2 < b3) :
    parseStrictCustomBuckets [.fin 0, .fin b1, .fin b2, .fin b3] = some [0, b1, b2, b3] := by
  simp [parseStrictCustomBuckets, JSNum.isFinite, JSNum.toQ, strictlyIncreasing, h1, h2, h3]

/-- C2 counterexample: in custom mode the edges `0, 0.001, 0.002, 9` are
accepted, but the key `0.002` assigned to the second color level is smaller
than the `0.01` and `0.01 + 1e-12` keys assigned before it — the key list in
assignment order is not strictly increasing. -/
theorem C2_counterexample :
    ¬ (tableKeys (getColorPalette "e" "a" "b" "c" "d" (.fin 9) .custom
        [.fin 0, .fin (1/1000), .fin (1/500), .fin 9])).Pairwise (· < ·) := by
  intro h
  have hparse : parseStrictCustomBuckets [.fin 0, .fin (1/1000), .fin (1/500), .fin 9]
      = some [0, 1/1000, 1/500, 9] := parse_some_of _ _ _ (by norm_num) (by norm_num) (by norm_num)
  rw [getColorPalette] at h
  rw [hparse] at h
  simp only [customPalette, List.getD_cons_succ, List.getD_cons_zero] at h
  rw [max_eq_right (by norm_num [MIN_COLORED_VALUE, MIN_EPS] : (1:ℚ)/1000 ≤ MIN_COLORED_VALUE + MIN_EPS)] at h
  rw [setKey_base_eps] at h
  rw [setKey_append_ex (basePalette "e" "a") (1/500) "b" (by
    intro p hp
    simp only [basePalette, List.mem_cons, List.not_mem_nil, or_false] at hp
    rcases hp with rfl | rfl | rfl <;> norm_num [MIN_COLORED_VALUE, MIN_EPS])] at h
  rw [setKey_append_ex (basePalette "e" "a" ++ [(1/500, "b")]) 9 "c" (by
    intro p hp
    simp only [basePalette, List.cons_append, List.nil_append, List.mem_cons,
      List.not_mem_nil, or_false] at hp
    rcases hp with rfl | rfl | rfl | rfl <;> norm_num [MIN_COLORED_VALUE, MIN_EPS])] at h
  rw [setKey_append_ex (basePalette "e" "a" ++ [(1/500, "b")] ++ [(9, "c")])
      MAX_SAFE_INTEGER "d" (by
    intro p hp
    simp only [basePalette, List.cons_append, List.nil_append, List.mem_cons,
      List.not_mem_nil, or_false] at hp
    rcases hp with rfl | rfl | rfl | rfl | rfl <;>
      norm_num [MIN_COLORED_VALUE, MIN_EPS, MAX_SAFE_INTEGER])] at h
  simp only [tableKeys, basePalette, List.map_append, List.map_cons, List.map_nil,
    List.cons_append, List.nil_append] at h
  have hbad := (List.pairwise_cons.1 (List.pairwise_cons.1 h).2).1 (1/500) (by simp)
  norm_num [MIN_COLORED_VALUE] at hbad

/-- C2 (amended): the palette key list, in the order the empty level and color
levels 1..4 are assigned, is strictly increasing for every configuration that
effectively uses automatic bucketing (auto mode, or custom mode with rejected
buckets), and in custom mode with accepted edges `[0, b1, b2, b3]` exactly
under the additional conditions `b2 > 0.01 + 1e-12` and
`b3 ≤ Number.MAX_SAFE_INTEGER`; the counterexample `0, 0.001, 0.002, 9` shows
it fails without them. -/
theorem C2_palette_keys_monotone (E l0 l1 l2 l3 : String) (mc : JSNum) :
    (∀ toks, (tableKeys (getColorPalette E l0 l1 l2 l3 mc .auto toks)).Pairwise (· < ·)
      ∧ (parseStrictCustomBuckets toks = none →
          (tableKeys (getColorPalette E l0 l1 l2 l3 mc .custom toks)).Pairwise (· < ·)))
    ∧ (∀ b1 b2 b3 : ℚ, 0 < b1 → b1 < b2 → b2 < b3 →
        MIN_COLORED_VALUE + MIN_EPS < b2 → b3 ≤ MAX_SAFE_INTEGER →
        (tableKeys (getColorPalette E l0 l1 l2 l3 mc .custom
            [.fin 0, .fin b1, .fin b2, .fin b3])).Pairwise (· < ·)) := by
  constructor
  · intro toks
    constructor
    · rw [getColorPalette]
      exact autoPalette_keys E l0 l1 l2 l3 mc
    · intro hnone
      rw [getColorPalette, hnone]
      exact autoPalette_keys E l0 l1 l2 l3 mc
  · intro b1 b2 b3 h1 h2 h3 hb2 hb3
    rw [getColorPalette, parse_some_of b1 b2 b3 h1 h2 h3]
    exact customPalette_keys E l0 l1 l2 l3 b1 b2 b3 h2 h3 hb2 hb3

/-- Witness for C2 at auto mode with maxCount 10 and at custom edges
`0, 1, 2, 9`. -/
theorem C2_palette_keys_monotone_witness :
    (tableKeys (getColorPalette "e" "a" "b" "c" "d" (.fin 10) .auto [])).Pairwise (· < ·)
    ∧ (tableKeys (getColorPalette "e" "a" "b" "c" "d" (.fin 10) .custom
        [.fin 0, .fin 1, .fin 2, .fin 9])).Pairwise (· < ·) :=
  ⟨((C2_palette_keys_monotone "e" "a" "b" "c" "d" (.fin 10)).1 []).1,
   (C2_palette_keys_monotone "e" "a" "b" "c" "d" (.fin 10)).2 1 2 9
     (by norm_num) (by norm_num) (by norm_num)
     (by norm_num [MIN_COLORED_VALUE, MIN_EPS])
     (by norm_num [MAX_SAFE_INTEGER])⟩

/-- Grafana field types relevant to `processTimeSeriesData`. -/
inductive FType where
  | time : FType
  | number : FType
  | other : FType
deriving DecidableEq

/-- A JS field entry: a finite number, or one of the invalid values the
processor discards (`null`, `undefined`, `NaN`).  Infinite observation values
are outside the model. -/
inductive JSVal where
  | null : JSVal
  | undef : JSVal
  | nan : JSVal
  | num : ℚ → JSVal
deriving DecidableEq

/-- A Grafana data-frame field (named `DataField`: `Field` collides with
Mathlib's algebraic `Field`). -/
structure DataField where
  name : String
  ftype : FType
  values : List JSVal
deriving DecidableEq

/-- A Grafana data frame: fields plus the row count `frame.length`. -/
structure Frame where
  fields : List DataField
  length : ℕ
deriving DecidableEq

/-- `frame.fields.find((f) => f.type === FieldType.time)`. -/
def findTimeField (fs : List DataField) : Option DataField :=
  fs.find? (fun f => f.ftype == FType.time)

/-- `frame.fields.find((f) => f.type === FieldType.number && f.name !== 'Time')`. -/
def findValueField (fs : List DataField) : Option DataField :=
  fs.find? (fun f => f.ftype == FType.number && f.name != "Time")

/-- Gregorian civil date from days since 1970-01-01 (the standard
`civil_from_days` algorithm used by date libraries; models
`dateTimeFormat(dateTime(ts), 'YYYY/MM/DD')` in a fixed UTC offset). -/
def civilFromDays (z0 : ℤ) : ℤ × ℤ × ℤ :=
  let z := z0 + 719468
  let era : ℤ := (if 0 ≤ z then z else z - 146096) / 146097
  let doe : ℤ := z - era * 146097
  let yoe : ℤ := (doe - doe / 1460 + doe / 36524 - doe / 146096) / 365
  let y : ℤ := yoe + era * 400
  let doy : ℤ := doe - (365 * yoe + yoe / 4 - yoe / 100)
  let mp : ℤ := (5 * doy + 2) / 153
  let d : ℤ := doy - (153 * mp + 2) / 5 + 1
  let m : ℤ := if mp < 10 then mp + 3 else mp - 9
  (if m ≤ 2 then y + 1 else y, m, d)

/-- Zero-pad a month/day numeral to two characters. -/
def pad2 (n : ℤ) : String :=
  if 0 ≤ n ∧ n < 10 then "0" ++ toString n else toString n

/-- Zero-pad a year numeral to four characters (moment's `YYYY`). -/
def pad4 (n : ℤ) : String :=
  if 0 ≤ n ∧ n < 10 then "000" ++ toString n
  else if 0 ≤ n ∧ n < 100 then "00" ++ toString n
  else if 0 ≤ n ∧ n < 1000 then "0" ++ toString n
  else toString n

/-- The canonical day key `YYYY/MM/DD` of a timestamp (milliseconds since
epoch).  Non-numeric inputs (out-of-range reads, invalid timestamps) have no
calendar day; they are modelled by a fixed placeholder string. -/
def fmtTimestamp (v : JSVal) : String :=
  match v with
  | .num t =>
    let c := civilFromDays ⌊t / 86400000⌋
    pad4 c.1 ++ "/" ++ pad2 c.2.1 ++ "/" ++ pad2 c.2.2
  | _ => "Invalid date"

/-- The per-frame row loop of `processTimeSeriesData` (dataProcessor.ts:9-35):
for each `i < frame.length` read `timeField.values[i]` and
`valueField.values[i]` (out-of-range reads give `undefined`), skip entries
whose value is `null`/`undefined`/`NaN`, and emit the `(day, value)` pair. -/
def frameRows (fr : Frame) : List (String × ℚ) :=
  match findTimeField fr.fields, findValueField fr.fields with
  | some tf, some vf =>
    (List.range fr.length).filterMap (fun i =>
      match vf.values.getD i .undef with
      | .num v => some (fmtTimestamp (tf.values.getD i .undef), v)
      | _ => none)
  | _, _ => []

/-- All `(day, value)` pairs of all frames, in traversal order. -/
def allRows (frames : List Frame) : List (String × ℚ) :=
  frames.flatMap frameRows

/-- One `dailyData` insertion: push `v` onto the entry for day `d`, creating
the entry at the end on first occurrence (JS `Map` preserves insertion
order). -/
def addRow (m : List (String × List ℚ)) (d : String) (v : ℚ) : List (String × List ℚ) :=
  if m.any (fun p => p.1 == d) then
    m.map (fun p => if p.1 = d then (p.1, p.2 ++ [v]) else p)
  else m ++ [(d, [v])]

/-- The `dailyData` map of `processTimeSeriesData`, as an insertion-ordered
association list. -/
def dailyData (frames : List Frame) : List (String × List ℚ) :=
  (allRows frames).foldl (fun m r => addRow m r.1 r.2) []

/-- `Math.max(...values)` over a non-empty list (the empty case never reaches
it behind the length guard). -/
def jsMax : List ℚ → ℚ
  | [] => 0
  | v :: rest => rest.foldl max v

/-- `Math.min(...values)` over a non-empty list. -/
def jsMin : List ℚ → ℚ
  | [] => 0
  | v :: rest => rest.foldl min v

/-- `aggregate` (dataProcessor.ts:56-75).  The method is a plain string so the
defensive `default` branch is observable. -/
def aggregate (values : List ℚ) (method : String) : ℚ :=
  if values.length = 0 then 0
  else if method = "sum" then values.foldl (· + ·) 0
  else if method = "count" then values.length
  else if method = "avg" then values.foldl (· + ·) 0 / values.length
  else if method = "max" then jsMax values
  else if method = "min" then jsMin values
  else values.foldl (· + ·) 0

/-- `Math.round(count * 100) / 100` (dataProcessor.ts:48). -/
def storeCount (c : ℚ) : ℚ := (jsRound (c * 100) : ℚ) / 100

/-- The body of the output `forEach` (dataProcessor.ts:39-49): aggregate the
day group, drop it when the aggregate lies in `[0, 0.01)`, otherwise store
the rounded value. -/
def entryOf (method : String) (p : String × List ℚ) : Option (String × ℚ) :=
  let c := aggregate p.2 method
  if 0 ≤ c ∧ c < 1/100 then none
  else some (p.1, storeCount c)

/-- Lexicographic comparison of character lists; models
`a.date.localeCompare(b.date)` on the ASCII digit/slash day keys. -/
def lexLe : List Char → List Char → Bool
  | [], _ => true
  | _ :: _, [] => false
  | a :: as, b :: bs => if a < b then true else if b < a then false else lexLe as bs

/-- Entry comparison for the final sort by day key. -/
def keyLe (a b : String × ℚ) : Bool := lexLe a.1.data b.1.data

/-- Strict ascending order of day-key strings. -/
def strLt (a b : String) : Prop := lexLe a.data b.data = true ∧ a ≠ b

/-- `processTimeSeriesData` (dataProcessor.ts:6-54): group rows by day,
aggregate, filter the `[0, 0.01)` band, round, and sort by day key. -/
def processTimeSeriesData (frames : List Frame) (method : String) : List (String × ℚ) :=
  ((dailyData frames).filterMap (entryOf method)).mergeSort keyLe

/-- The seed of a max-fold is a lower bound of the result. -/
theorem le_foldl_max : ∀ (l : List ℚ) (v : ℚ), v ≤ l.foldl max v
  | [], _ => le_refl _
  | x :: t, v => le_trans (le_max_left v x) (le_foldl_max t (max v x))

/-- Every element of a max-fold is bounded by the result. -/
theorem mem_le_foldl_max : ∀ (l : List ℚ) (v x : ℚ), x ∈ l → x ≤ l.foldl max v
  | y :: t, v, x, h => by
    rcases List.mem_cons.1 h with rfl | h'
    · exact le_trans (le_max_right v x) (le_foldl_max t (max v x))
    · exact mem_le_foldl_max t (max v y) x h'

/-- A max-fold returns its seed or one of the elements. -/
theorem foldl_max_mem : ∀ (l : List ℚ) (v : ℚ), l.foldl max v ∈ v :: l
  | [], v => List.mem_singleton.2 rfl
  | x :: t, v => by
    rcases List.mem_cons.1 (foldl_max_mem t (max v x)) with h | h
    · rcases max_choice v x with hm | hm <;> rw [List.foldl_cons, h, hm]
      · exact List.mem_cons_self _ _
      · exact List.mem_cons_of_mem _ (List.mem_cons_self _ _)
    · exact List.mem_cons_of_mem _ (List.mem_cons_of_mem _ h)

/-- The seed of a min-fold is an upper bound of the result. -/
theorem foldl_min_le : ∀ (l : List ℚ) (v : ℚ), l.foldl min v ≤ v
  | [], _ => le_refl _
  | x :: t, v => le_trans (foldl_min_le t (min v x)) (min_le_left v x)

/-- The result of a min-fold is below every element. -/
theorem foldl_min_le_mem : ∀ (l : List ℚ) (v x : ℚ), x ∈ l → l.foldl min v ≤ x
  | y :: t, v, x, h => by
    rcases List.mem_cons.1 h with rfl | h'
    · exact le_trans (foldl_min_le t (min v x)) (min_le_right v x)
    · exact foldl_min_le_mem t (min v y) x h'

/-- A min-fold returns its seed or one of the elements. -/
theorem foldl_min_mem : ∀ (l : List ℚ) (v : ℚ), l.foldl min v ∈ v :: l
  | [], v => List.mem_singleton.2 rfl
  | x :: t, v => by
    rcases List.mem_cons.1 (foldl_min_mem t (min v x)) with h | h
    · rcases min_choice v x with hm | hm <;> rw [List.foldl_cons, h, hm]
      · exact List.mem_cons_self _ _
      · exact List.mem_cons_of_mem _ (List.mem_cons_self _ _)
    · exact List.mem_cons_of_mem _ (List.mem_cons_of_mem _ h)

/-- C6: on every non-empty list, `aggregate` returns the arithmetic sum for
'sum', the element count for 'count', sum over count for 'avg', the maximum
for 'max', the minimum for 'min', and the sum for every unrecognized method
string; on the two observations 3 and 5 this gives 8, 2, 4, 5, 3. -/
theorem C6_aggregate (vs : List ℚ) (h : vs ≠ []) :
    aggregate vs "sum" = vs.sum
    ∧ aggregate vs "count" = vs.length
    ∧ aggregate vs "avg" = vs.sum / vs.length
    ∧ (aggregate vs "max" ∈ vs ∧ ∀ x ∈ vs, x ≤ aggregate vs "max")
    ∧ (aggregate vs "min" ∈ vs ∧ ∀ x ∈ vs, aggregate vs "min" ≤ x)
    ∧ (∀ m : String, m ≠ "sum" → m ≠ "count" → m ≠ "avg" → m ≠ "max" → m ≠ "min" →
        aggregate vs m = vs.sum)
    ∧ (aggregate [3, 5] "sum" = 8 ∧ aggregate [3, 5] "avg" = 4
        ∧ aggregate [3, 5] "count" = 2 ∧ aggregate [3, 5] "max" = 5
        ∧ aggregate [3, 5] "min" = 3) := by
  have hlen : ¬ vs.length = 0 := by
    simpa [List.length_eq_zero] using h
  obtain ⟨v, t, rfl⟩ : ∃ v t, vs = v :: t := by
    cases vs with
    | nil => exact absurd rfl h
    | cons v t => exact ⟨v, t, rfl⟩
  refine ⟨?_, ?_, ?_, ⟨?_, ?_⟩, ⟨?_, ?_⟩, ?_, ?_⟩
  · simp [aggregate, hlen, List.sum_eq_foldl]
  · simp [aggregate, hlen]
  · simp [aggregate, hlen, List.sum_eq_foldl]
  · simpa [aggregate, hlen, jsMax] using foldl_max_mem t v
  · intro x hx
    rcases List.mem_cons.1 hx with rfl | hx'
    · simpa [aggregate, hlen, jsMax] using le_foldl_max t x
    · simpa [aggregate, hlen, jsMax] using mem_le_foldl_max t v x hx'
  · simpa [aggregate, hlen, jsMin] using foldl_min_mem t v
  · intro x hx
    rcases List.mem_cons.1 hx with rfl | hx'
    · simpa [aggregate, hlen, jsMin] using foldl_min_le t x
    · simpa [aggregate, hlen, jsMin] using foldl_min_le_mem t v x hx'
  · intro m h1 h2 h3 h4 h5
    simp [aggregate, hlen, h1, h2, h3, h4, h5, List.sum_eq_foldl]
  · refine ⟨?_, ?_, ?_, ?_, ?_⟩ <;> with_unfolding_all decide

/-- Witness for C6 at the two observations 3 and 5. -/
theorem C6_aggregate_witness :
    ([3, 5] : List ℚ) ≠ [] ∧ aggregate [3, 5] "sum" = 8 :=
  ⟨by with_unfolding_all decide,
   (C6_aggregate [3, 5] (by with_unfolding_all decide)).2.2.2.2.2.2.1⟩

/-- `lexLe` is total. -/
theorem lexLe_total : ∀ a b : List Char, lexLe a b = true ∨ lexLe b a = true := by
  intro a
  induction a with
  | nil => intro b; left; rfl
  | cons x xs ih =>
    intro b
    cases b with
    | nil => right; rfl
    | cons y ys =>
      by_cases hxy : x < y
      · left; simp [lexLe, hxy]
      · by_cases hyx : y < x
        · right; simp [lexLe, hyx]
        · rcases ih ys with hh | hh
          · left; simp [lexLe, hxy, hyx, hh]
          · right; simp [lexLe, hyx, hxy, hh]

/-- `lexLe` is transitive. -/
theorem lexLe_trans : ∀ a b c : List Char,
    lexLe a b = true → lexLe b c = true → lexLe a c = true := by
  intro a
  induction a with
  | nil => intro b c _ _; rfl
  | cons x xs ih =>
    intro b c hab hbc
    cases b with
    | nil => simp [lexLe] at hab
    | cons y ys =>
      cases c with
      | nil => simp [lexLe] at hbc
      | cons z zs =>
        simp only [lexLe] at hab hbc ⊢
        by_cases hxy : x < y
        · -- x < y ≤ z
          by_cases hyz : y < z
          · simp [lt_trans hxy hyz]
          · by_cases hzy : z < y
            · simp [lexLe, hyz, hzy] at hbc
            · have : y = z := le_antisymm (not_lt.1 hzy) (not_lt.1 hyz)
              subst this
              simp [hxy]
        · by_cases hyx : y < x
          · simp [hxy, hyx] at hab
          · have hxyeq : x = y := le_antisymm (not_lt.1 hyx) (not_lt.1 hxy)
            subst hxyeq
            simp only [hxy, if_neg, lt_irrefl, if_false] at hab
            by_cases hyz : x < z
            · simp [hyz]
            · by_cases hzy : z < x
              · simp [hyz, hzy] at hbc
              · have : x = z := le_antisymm (not_lt.1 hzy) (not_lt.1 hyz)
                subst this
                simp only [lt_irrefl, if_false] at hab hbc ⊢
                exact ih ys zs hab hbc

/-- `addRow` preserves distinctness of the day keys. -/
theorem addRow_keys_nodup (m : List (String × List ℚ)) (d : String) (v : ℚ)
    (h : (m.map Prod.fst).Nodup) : ((addRow m d v).map Prod.fst).Nodup := by
  by_cases hmem : m.any (fun p => p.1 == d) = true
  · rw [addRow, if_pos hmem]
    have : (m.map (fun p => if p.1 = d then (p.1, p.2 ++ [v]) else p)).map Prod.fst
        = m.map Prod.fst := by
      rw [List.map_map]
      refine List.map_congr_left (fun p _ => ?_)
      by_cases hpd : p.1 = d
      · simp [hpd]
      · simp [hpd]
    rw [this]
    exact h
  · rw [addRow, if_neg hmem]
    rw [List.map_append, List.map_cons, List.map_nil, List.nodup_append]
    refine ⟨h, List.nodup_singleton _, ?_⟩
    intro a ha hb
    simp only [List.mem_singleton] at hb
    subst hb
    obtain ⟨p, hpm, rfl⟩ := List.mem_map.1 ha
    simp only [List.any_eq_true, beq_iff_eq, not_exists, not_and] at hmem
    push_neg at hmem
    exact hmem p hpm rfl

/-- The grouping fold preserves distinctness of the day keys. -/
theorem foldl_addRow_nodup (rows : List (String × ℚ)) :
    ∀ m : List (String × List ℚ), (m.map Prod.fst).Nodup →
      ((rows.foldl (fun m r => addRow m r.1 r.2) m).map Prod.fst).Nodup := by
  induction rows with
  | nil => intro m h; simpa using h
  | cons r t ih =>
    intro m h
    rw [List.foldl_cons]
    exact ih _ (addRow_keys_nodup m r.1 r.2 h)

/-- The `dailyData` map has pairwise-distinct day keys. -/
theorem dailyData_keys_nodup (frames : List Frame) :
    ((dailyData frames).map Prod.fst).Nodup :=
  foldl_addRow_nodup (allRows frames) [] (by simp)

/-- The output filter keeps each entry's day key, so output keys form a
sublist of the group keys. -/
theorem entryOf_keys_sublist (method : String) (l : List (String × List ℚ)) :
    ((l.filterMap (entryOf method)).map Prod.fst).Sublist (l.map Prod.fst) := by
  induction l with
  | nil => simp
  | cons p t ih =>
    rw [List.filterMap_cons]
    cases hq : entryOf method p with
    | none => exact (List.map_cons _ _ _) ▸ List.Sublist.cons _ ih
    | some q =>
      have hkey : q.1 = p.1 := by
        simp only [entryOf] at hq
        split at hq
        · exact absurd hq (by simp)
        · cases hq; rfl
      rw [List.map_cons, List.map_cons, hkey]
      exact List.Sublist.cons₂ _ ih

/-- C7: for every frame list and method the output day keys are pairwise
distinct and strictly ascending in the canonical-string order, and the empty
input produces the empty output. -/
theorem C7_output_sorted_unique (frames : List Frame) (method : String) :
    ((processTimeSeriesData frames method).map Prod.fst).Pairwise strLt
    ∧ processTimeSeriesData [] method = [] := by
  constructor
  · have hperm : (processTimeSeriesData frames method).Perm
        ((dailyData frames).filterMap (entryOf method)) :=
      List.mergeSort_perm _ keyLe
    have hnodup0 : (((dailyData frames).filterMap (entryOf method)).map Prod.fst).Nodup :=
      (entryOf_keys_sublist method (dailyData frames)).nodup (dailyData_keys_nodup frames)
    have hnodup : ((processTimeSeriesData frames method).map Prod.fst).Nodup :=
      ((hperm.map Prod.fst).nodup_iff).2 hnodup0
    have hsorted : (processTimeSeriesData frames method).Pairwise
        (fun a b => keyLe a b = true) :=
      @List.sorted_mergeSort (String × ℚ) keyLe
        (fun a b c hab hbc => lexLe_trans _ _ _ hab hbc)
        (fun a b => by
          rcases lexLe_total a.1.data b.1.data with hh | hh <;> simp [keyLe, hh])
        ((dailyData frames).filterMap (entryOf method))
    have hne : (processTimeSeriesData frames method).Pairwise
        (fun a b => a.1 ≠ b.1) := List.pairwise_map.1 hnodup
    rw [List.pairwise_map]
    exact (hsorted.and hne).imp (fun hab => ⟨hab.1, hab.2⟩)
  · simp [processTimeSeriesData, dailyData, allRows]

/-- Negative aggregates round-and-store to a non-positive value. -/
theorem storeCount_le_zero (c : ℚ) (h : c < 0) : storeCount c ≤ 0 := by
  have h1 : ⌊c * 100 + 1/2⌋ < 1 := Int.floor_lt.2 (by push_cast; linarith)
  have h2 : ((⌊c * 100 + 1/2⌋ : ℤ) : ℚ) ≤ 0 := by exact_mod_cast Int.lt_add_one_iff.1 h1
  rw [storeCount, jsRound]
  linarith

/-- Aggregates at or above the colored boundary store at least `0.01`. -/
theorem storeCount_ge_min (c : ℚ) (h : 1/100 ≤ c) : 1/100 ≤ storeCount c := by
  have h1 : (1 : ℤ) ≤ ⌊c * 100 + 1/2⌋ := Int.le_floor.2 (by push_cast; linarith)
  have h2 : (1 : ℚ) ≤ ((⌊c * 100 + 1/2⌋ : ℤ) : ℚ) := by exact_mod_cast h1
  rw [storeCount, jsRound]
  linarith

/-- C3 (amended): no output entry's stored value lies strictly between 0 and
0.01 — day groups whose aggregate falls in `[0, 0.01)` are suppressed — but
negative aggregates are emitted, so values below 0.01 do occur. -/
theorem C3_low_band_suppressed (frames : List Frame) (method : String) :
    ∀ e ∈ processTimeSeriesData frames method, e.2 ≤ 0 ∨ 1/100 ≤ e.2 := by
  intro e he
  have he' : e ∈ (dailyData frames).filterMap (entryOf method) :=
    (List.mergeSort_perm _ keyLe).subset he
  obtain ⟨p, hp, hpe⟩ := List.mem_filterMap.1 he'
  simp only [entryOf] at hpe
  split at hpe
  · exact absurd hpe (by simp)
  · rename_i hcond
    cases hpe
    push_neg at hcond
    rcases lt_or_le (aggregate p.2 method) 0 with hneg | hpos
    · exact Or.inl (storeCount_le_zero _ hneg)
    · exact Or.inr (storeCount_ge_min _ (hcond hpos))

/-- C3 counterexample: a day whose aggregate is −5 is emitted with stored
value −5, which lies below the 0.01 threshold. -/
theorem C3_counterexample :
    processTimeSeriesData
        [⟨[⟨"time", .time, [.num 0]⟩, ⟨"value", .number, [.num (-5)]⟩], 1⟩] "sum"
      = [("1970/01/01", -5)]
    ∧ (-5 : ℚ) < 1/100 := by
  constructor
  · rw [processTimeSeriesData,
      show (dailyData [⟨[⟨"time", .time, [.num 0]⟩, ⟨"value", .number, [.num (-5)]⟩], 1⟩]).filterMap
          (entryOf "sum") = [("1970/01/01", -5)] from by with_unfolding_all decide]
    exact List.mergeSort_singleton _
  · norm_num

/-- Witness for C3 at a day with aggregate 5. -/
theorem C3_low_band_suppressed_witness :
    (("1970/01/01", (5 : ℚ)) ∈ processTimeSeriesData
        [⟨[⟨"time", .time, [.num 0]⟩, ⟨"value", .number, [.num 5]⟩], 1⟩] "sum")
    ∧ ((5 : ℚ) ≤ 0 ∨ 1/100 ≤ (5 : ℚ)) := by
  have hmem : ("1970/01/01", (5 : ℚ)) ∈ processTimeSeriesData
      [⟨[⟨"time", .time, [.num 0]⟩, ⟨"value", .number, [.num 5]⟩], 1⟩] "sum" := by
    rw [processTimeSeriesData,
      show (dailyData [⟨[⟨"time", .time, [.num 0]⟩, ⟨"value", .number, [.num 5]⟩], 1⟩]).filterMap
          (entryOf "sum") = [("1970/01/01", 5)] from by with_unfolding_all decide,
      List.mergeSort_singleton]
    exact List.mem_singleton.2 rfl
  exact ⟨hmem, C3_low_band_suppressed _ "sum" _ hmem⟩

/-- The spec's stated rounding rule: round to cents half away from zero,
`sign(r) * round(|r|*100) / 100`.  Modelled from the spec for comparison with
the code's `Math.round(count * 100) / 100`. -/
def roundHalfAwayCent (r : ℚ) : ℚ :=
  if r < 0 then -(((⌊(-r) * 100 + 1/2⌋ : ℤ) : ℚ) / 100)
  else ((⌊r * 100 + 1/2⌋ : ℤ) : ℚ) / 100

/-- C4 counterexample: a day whose aggregate is the negative half-cent tie
−0.005 is stored as 0 by the code, while round-half-away-from-zero prescribes
−0.01. -/
theorem C4_counterexample :
    processTimeSeriesData
        [⟨[⟨"time", .time, [.num 0]⟩, ⟨"value", .number, [.num (-1/200)]⟩], 1⟩] "sum"
      = [("1970/01/01", 0)]
    ∧ roundHalfAwayCent (-1/200) = -(1/100)
    ∧ (0 : ℚ) ≠ -(1/100) := by
  refine ⟨?_, ?_, ?_⟩
  · rw [processTimeSeriesData,
      show (dailyData [⟨[⟨"time", .time, [.num 0]⟩, ⟨"value", .number, [.num (-1/200)]⟩], 1⟩]).filterMap
          (entryOf "sum") = [("1970/01/01", 0)] from by with_unfolding_all decide]
    exact List.mergeSort_singleton _
  · with_unfolding_all decide
  · norm_num

/-- C4 (amended): the stored value is `⌊r·100 + 1/2⌋ / 100`
(round-half-toward-+∞ at the cent boundary); this agrees with
round-half-away-from-zero whenever `r ≥ 0` or `r·100` is not a half-integer
tie, and differs exactly at negative ties, where the code rounds up
(toward zero). -/
theorem C4_round_half_up (r : ℚ)
    (h : 0 ≤ r ∨ ∀ k : ℤ, r * 100 ≠ (k : ℚ) + 1/2) :
    storeCount r = roundHalfAwayCent r
    ∧ storeCount r = ((⌊r * 100 + 1/2⌋ : ℤ) : ℚ) / 100 := by
  refine ⟨?_, rfl⟩
  rcases lt_or_le r 0 with hneg | hpos
  · rcases h with hpos' | hnotie
    · linarith
    · rw [storeCount, jsRound, roundHalfAwayCent, if_pos hneg]
      have hfloor : ⌊-r * 100 + 1/2⌋ = -⌊r * 100 + 1/2⌋ := by
        set n := ⌊r * 100 + 1/2⌋ with hn
        have hlow : (n : ℚ) ≤ r * 100 + 1/2 := Int.floor_le _
        have hhigh : r * 100 + 1/2 < (n : ℚ) + 1 := Int.lt_floor_add_one _
        have hstrict : (n : ℚ) < r * 100 + 1/2 := by
          rcases lt_or_eq_of_le hlow with hh | hh
          · exact hh
          · exact absurd (by push_cast; linarith : r * 100 = ((n - 1 : ℤ) : ℚ) + 1/2)
              (hnotie (n - 1))
        rw [Int.floor_eq_iff]
        constructor
        · push_cast
          linarith
        · push_cast
          linarith
      rw [hfloor]
      push_cast
      ring
  · rw [storeCount, jsRound, roundHalfAwayCent, if_neg (not_lt.2 hpos)]

/-- Witness for C4 at `r = 201/200` (= 1.005, the positive tie: stored 1.01). -/
theorem C4_round_half_up_witness :
    ((0 : ℚ) ≤ 201/200 ∨ ∀ k : ℤ, (201/200 : ℚ) * 100 ≠ (k : ℚ) + 1/2)
    ∧ storeCount (201/200) = roundHalfAwayCent (201/200) :=
  ⟨Or.inl (by norm_num), (C4_round_half_up (201/200) (Or.inl (by norm_num))).1⟩

/-- Indexed traversal of a two-column frame visits exactly the row pairs. -/
theorem range_filterMap_rows {γ : Type} (f : JSVal → JSVal → Option γ) :
    ∀ rows : List (JSVal × JSVal),
      (List.range rows.length).filterMap
        (fun i => f ((rows.map Prod.fst).getD i .undef) ((rows.map Prod.snd).getD i .undef))
      = rows.filterMap (fun r => f r.1 r.2) := by
  intro rows
  induction rows with
  | nil => simp
  | cons r t ih =>
    rw [List.map_cons, List.map_cons, List.length_cons, List.range_succ_eq_map,
      List.filterMap_cons, List.filterMap_map]
    have htail : List.filterMap ((fun i =>
        f ((r.1 :: List.map Prod.fst t).getD i .undef)
          ((r.2 :: List.map Prod.snd t).getD i .undef)) ∘ Nat.succ) (List.range t.length)
        = List.filterMap (fun p => f p.1 p.2) t := by
      refine (List.filterMap_congr fun i _ => ?_).trans ih
      rfl
    rw [List.filterMap_cons]
    simp only [List.getD_cons_zero]
    rw [htail]

/-- A canonical two-field frame holding the given `(timestamp, value)` rows. -/
def mkFrame (rows : List (JSVal × JSVal)) : Frame :=
  ⟨[⟨"time", FType.time, rows.map Prod.fst⟩, ⟨"value", FType.number, rows.map Prod.snd⟩],
    rows.length⟩

/-- Row extraction from a canonical frame: exactly the rows with a numeric
value survive. -/
theorem frameRows_mkFrame (rows : List (JSVal × JSVal)) :
    frameRows (mkFrame rows) = rows.filterMap (fun r =>
      match r.2 with
      | .num v => some (fmtTimestamp r.1, v)
      | _ => none) := by
  have htf : findTimeField (mkFrame rows).fields
      = some ⟨"time", FType.time, rows.map Prod.fst⟩ := rfl
  have hvf : findValueField (mkFrame rows).fields
      = some ⟨"value", FType.number, rows.map Prod.snd⟩ := rfl
  rw [frameRows, htf, hvf]
  exact range_filterMap_rows
    (fun t v => match v with | .num q => some (fmtTimestamp t, q) | _ => none) rows

/-- C8: observations with `null`/`undefined`/`NaN` values contribute nothing
(dropping them leaves the output unchanged); a day holding `NaN` and 2 sums
to 2, and a day holding only invalid values produces no entry at all. -/
theorem C8_invalid_values_dropped (method : String) :
    (∀ rows : List (JSVal × JSVal),
      processTimeSeriesData [mkFrame rows] method
        = processTimeSeriesData [mkFrame (rows.filter (fun r =>
            match r.2 with | .num _ => true | _ => false))] method)
    ∧ processTimeSeriesData [mkFrame [(.num 0, .nan), (.num 0, .num 2)]] "sum"
        = [("1970/01/01", 2)]
    ∧ processTimeSeriesData [mkFrame [(.num 0, .nan)]] "sum" = [] := by
  refine ⟨?_, ?_, ?_⟩
  · intro rows
    have hrows : frameRows (mkFrame rows)
        = frameRows (mkFrame (rows.filter (fun r =>
            match r.2 with | .num _ => true | _ => false))) := by
      rw [frameRows_mkFrame, frameRows_mkFrame, List.filterMap_filter]
      apply List.filterMap_congr
      intro r _
      cases r.2 <;> simp
    simp only [processTimeSeriesData, dailyData, allRows, List.flatMap_cons,
      List.flatMap_nil, List.append_nil]
    rw [hrows]
  · rw [processTimeSeriesData,
      show (dailyData [mkFrame [(.num 0, .nan), (.num 0, .num 2)]]).filterMap
          (entryOf "sum") = [("1970/01/01", 2)] from by with_unfolding_all decide]
    exact List.mergeSort_singleton _
  · rw [processTimeSeriesData,
      show (dailyData [mkFrame [(.num 0, .nan)]]).filterMap (entryOf "sum") = []
        from by with_unfolding_all decide]
    exact List.mergeSort_nil

/-- C10: a frame with no time-typed field, or whose number-typed fields are
all named exactly `Time`, contributes nothing: removing it leaves the output
unchanged (and processing is total by construction). -/
theorem C10_fieldless_frames_skipped (fs₁ fs₂ : List Frame) (fr : Frame) (method : String)
    (h : (∀ f ∈ fr.fields, f.ftype ≠ FType.time)
        ∨ (∀ f ∈ fr.fields, f.ftype = FType.number → f.name = "Time")) :
    processTimeSeriesData (fs₁ ++ fr :: fs₂) method
      = processTimeSeriesData (fs₁ ++ fs₂) method := by
  have hrows : frameRows fr = [] := by
    rcases h with h | h
    · have hfind : findTimeField fr.fields = none := by
        rw [findTimeField, List.find?_eq_none]
        intro f hf
        simp [h f hf]
      rw [frameRows, hfind]
    · have hfind : findValueField fr.fields = none := by
        rw [findValueField, List.find?_eq_none]
        intro f hf
        by_cases hnum : f.ftype = FType.number
        · simp [hnum, h f hf hnum]
        · simp [hnum]
      cases htf : findTimeField fr.fields <;> rw [frameRows, htf, hfind]
  have hall : allRows (fs₁ ++ fr :: fs₂) = allRows (fs₁ ++ fs₂) := by
    simp [allRows, hrows]
  simp only [processTimeSeriesData, dailyData, hall]

/-- Witness for C10: a frame whose only numeric field is named `Time` is
skipped entirely. -/
theorem C10_fieldless_frames_skipped_witness :
    (∀ f ∈ ([⟨"Time", FType.number, [.num 3]⟩] : List DataField),
        f.ftype = FType.number → f.name = "Time")
    ∧ processTimeSeriesData [⟨[⟨"Time", FType.number, [.num 3]⟩], 1⟩] "sum"
        = processTimeSeriesData [] "sum" :=
  ⟨by decide,
   C10_fieldless_frames_skipped [] [] ⟨[⟨"Time", FType.number, [.num 3]⟩], 1⟩ "sum"
     (Or.inr (by decide))⟩

/-- A civil (timezone-resolved) calendar date as read from a JS `Date` via
`getFullYear`/`getMonth`/`getDate`.  The model assumes every local day lasts
24 hours (a fixed-offset zone; DST transitions are environment data outside
the embedding), so millisecond day arithmetic coincides with civil-date
arithmetic. -/
structure Civil where
  year : ℤ
  month : ℤ
  day : ℤ
deriving DecidableEq

/-- Gregorian leap-year rule. -/
def isLeap (y : ℤ) : Bool := (y % 4 == 0 && y % 100 != 0) || y % 400 == 0

/-- Days in a month of the proleptic Gregorian calendar. -/
def daysInMonth (y m : ℤ) : ℤ :=
  if m = 2 then (if isLeap y then 29 else 28)
  else if m = 4 ∨ m = 6 ∨ m = 9 ∨ m = 11 then 30 else 31

/-- Validity of a civil date. -/
def Civil.isValid (c : Civil) : Prop :=
  1 ≤ c.month ∧ c.month ≤ 12 ∧ 1 ≤ c.day ∧ c.day ≤ daysInMonth c.year c.month

instance (c : Civil) : Decidable c.isValid := by
  unfold Civil.isValid
  infer_instance

/-- `new Date(t + DAY_MS)` from local midnight of a valid date: the next
civil day. -/
def nextDay (c : Civil) : Civil :=
  if c.day < daysInMonth c.year c.month then ⟨c.year, c.month, c.day + 1⟩
  else if c.month < 12 then ⟨c.year, c.month + 1, 1⟩
  else ⟨c.year + 1, 1, 1⟩

/-- `new Date(t - DAY_MS)` from local midnight of a valid date: the previous
civil day. -/
def prevDay (c : Civil) : Civil :=
  if 1 < c.day then ⟨c.year, c.month, c.day - 1⟩
  else if 1 < c.month then ⟨c.year, c.month - 1, daysInMonth c.year (c.month - 1)⟩
  else ⟨c.year - 1, 12, 31⟩

/-- `addDays` (CalendarHeatmapPanel.tsx:14-16) on civil dates. -/
def addDaysCivil (c : Civil) (n : ℤ) : Civil :=
  if 0 ≤ n then nextDay^[n.toNat] c else prevDay^[(-n).toNat] c

/-- Character count of the base-10 numeral of `n` (1 for 0): the length of
JS `String(n)` for a natural number. -/
def digitLen (n : ℕ) : ℕ :=
  if n < 10 then 1 else digitLen (n / 10) + 1
decreasing_by exact Nat.div_lt_self (by omega) (by norm_num)

/-- Length of the unpadded serialization `${z}` of an integer (a leading
minus sign adds one character). -/
def digitLenZ (z : ℤ) : ℕ :=
  digitLen z.natAbs + (if z < 0 then 1 else 0)

/-- One `/`-separated field of a day-key string.  A decimal numeral string is
uniquely determined by its numeric value together with its character length
(the length fixes the leading zeros), so the field string is represented by
that pair; JS `Number(·)` on such a numeral returns `val`. -/
structure NumField where
  val : ℤ
  len : ℕ
deriving DecidableEq

/-- An unpadded numeral field, as emitted by `` `${date.getFullYear()}` `` in
`toKey`. -/
def rawField (z : ℤ) : NumField := ⟨z, digitLenZ z⟩

/-- A numeral field zero-padded to 2 characters (`padStart(2, '0')` in
`toKey`, and moment's `MM`/`DD` in the aggregator key). -/
def padField2 (z : ℤ) : NumField := ⟨z, max 2 (digitLenZ z)⟩

/-- A numeral field zero-padded to 4 characters (moment's `YYYY` in the
aggregator key; years at or above 10000 print in full).  Negative years,
which moment expands further, are outside the claims' range. -/
def padField4 (z : ℤ) : NumField := ⟨z, max 4 (digitLenZ z)⟩

/-- A `YYYY/MM/DD`-shaped day string: its three `/`-separated numeral fields.
Splitting on `/` and joining with `/` are mutually inverse for such strings,
so string equality coincides with equality of the three field pairs — and the
pairs keep the padding visible: `"0500"` is `⟨500, 4⟩` while `"500"` is
`⟨500, 3⟩`. -/
structure YMDKey where
  yf : NumField
  mf : NumField
  df : NumField
deriving DecidableEq

/-- `toKey` (CalendarHeatmapPanel.tsx:33-38): `getFullYear()` serialized
UNPADDED, month and day padded to two characters. -/
def toKey (c : Civil) : YMDKey :=
  ⟨rawField c.year, padField2 c.month, padField2 c.day⟩

/-- The Aggregator's canonical key (moment `YYYY/MM/DD`,
dataProcessor.ts:25-28): year padded to four characters, month and day to
two. -/
def aggKey (c : Civil) : YMDKey :=
  ⟨padField4 c.year, padField2 c.month, padField2 c.day⟩

/-- `parseAnyYMD` (CalendarHeatmapPanel.tsx:19-30) followed by
`new Date(y, m-1, d)`: `Number(·)` of each field reads its numeric value
(leading zeros are immaterial), and the ECMAScript `Date(year, ...)`
constructor maps two-digit years 0..99 to 1900+year.  In-range fields give
that civil date; out-of-range fields, which `new Date` would normalize
arithmetically, are not modelled (`none`) — the claims only parse serializer
outputs of valid dates. -/
def parseAnyYMD (k : YMDKey) : Option Civil :=
  let y := if 0 ≤ k.yf.val ∧ k.yf.val ≤ 99 then k.yf.val + 1900 else k.yf.val
  if 1 ≤ k.mf.val ∧ k.mf.val ≤ 12 ∧ 1 ≤ k.df.val ∧ k.df.val ≤ daysInMonth y k.mf.val
  then some ⟨y, k.mf.val, k.df.val⟩ else none

/-- The render pipeline (CalendarHeatmapPanel.tsx:83-96): parse an aggregated
day key, shift it by `renderShiftDays`, re-serialize it with `toKey` for the
renderer. -/
def shiftedKey (k : YMDKey) (off : ℤ) : Option YMDKey :=
  (parseAnyYMD k).map (fun c => toKey (addDaysCivil c off))

/-- `rectRender` (CalendarHeatmapPanel.tsx:304-314): parse the rendered cell
date, reverse the shift, re-serialize with `toKey` to look up the original
value. -/
def unshiftKey (k : YMDKey) (off : ℤ) : Option YMDKey :=
  (parseAnyYMD k).map (fun c => toKey (addDaysCivil c (-off)))

/-- Shift-then-unshift through the rendered string, as composed by the
panel. -/
def roundtripKey (k : YMDKey) (off : ℤ) : Option YMDKey :=
  (shiftedKey k off).bind (fun k2 => unshiftKey k2 off)

/-- Every month has at least one day. -/
theorem daysInMonth_pos (y m : ℤ) : 1 ≤ daysInMonth y m := by
  unfold daysInMonth
  split_ifs <;> norm_num

/-- December has 31 days. -/
theorem daysInMonth_december (y : ℤ) : daysInMonth y 12 = 31 := by
  norm_num [daysInMonth]

/-- The previous day of a valid date is valid. -/
theorem prevDay_isValid (c : Civil) (hv : c.isValid) : (prevDay c).isValid := by
  obtain ⟨y, m, d⟩ := c
  obtain ⟨h1, h2, h3, h4⟩ := hv
  rw [prevDay]
  by_cases hd : 1 < d
  · rw [if_pos hd]
    exact ⟨h1, h2, by simp only; linarith, by simp only; linarith [h4]⟩
  · rw [if_neg hd]
    by_cases hm : 1 < m
    · rw [if_pos hm]
      exact ⟨by simp only; linarith, by simp only; linarith,
        by simp only; exact daysInMonth_pos _ _, by simp only; exact le_refl _⟩
    · rw [if_neg hm]
      exact ⟨by norm_num, by norm_num, by norm_num,
        by simp only; rw [daysInMonth_december]⟩

/-- Stepping back one day and forward one day recovers a valid date. -/
theorem nextDay_prevDay (c : Civil) (hv : c.isValid) : nextDay (prevDay c) = c := by
  obtain ⟨y, m, d⟩ := c
  obtain ⟨h1, h2, h3, h4⟩ := hv
  simp only at h1 h2 h3 h4
  rw [prevDay]
  by_cases hd : 1 < d
  · rw [if_pos hd, nextDay]
    simp only
    rw [if_pos (by linarith : d - 1 < daysInMonth y m), sub_add_cancel]
  · have hd1 : d = 1 := le_antisymm (not_lt.1 hd) h3
    rw [if_neg hd]
    by_cases hm : 1 < m
    · rw [if_pos hm, nextDay]
      simp only
      rw [if_neg (lt_irrefl _), if_pos (by linarith : m - 1 < 12), sub_add_cancel, hd1]
    · have hm1 : m = 1 := le_antisymm (not_lt.1 hm) h1
      rw [if_neg hm, nextDay]
      simp only
      rw [daysInMonth_december, if_neg (by norm_num : ¬ (31:ℤ) < 31),
        if_neg (by norm_num : ¬ (12:ℤ) < 12), sub_add_cancel, hm1, hd1]

/-- Parsing any key whose numeric fields are those of a valid date with a
3-digit-or-more year recovers the date, whatever the fields' padding (the
two-digit-year rule does not fire). -/
theorem parse_of_valid (c : Civil) (hv : c.isValid) (hy : 100 ≤ c.year) (k : YMDKey)
    (hky : k.yf.val = c.year) (hkm : k.mf.val = c.month) (hkd : k.df.val = c.day) :
    parseAnyYMD k = some c := by
  obtain ⟨y, m, d⟩ := c
  obtain ⟨h1, h2, h3, h4⟩ := hv
  simp only at h1 h2 h3 h4 hy hky hkm hkd
  simp only [parseAnyYMD, hky, hkm, hkd]
  rw [show (if 0 ≤ y ∧ y ≤ 99 then y + 1900 else y) = y from
    if_neg (fun hq => by linarith [hq.2])]
  rw [if_pos (show (1:ℤ) ≤ m ∧ m ≤ 12 ∧ 1 ≤ d ∧ d ≤ daysInMonth y m from
    ⟨h1, h2, h3, h4⟩)]

/-- Numbers with at least four digits have `digitLen` at least 4. -/
theorem digitLen_ge_four (n : ℕ) (h : 1000 ≤ n) : 4 ≤ digitLen n := by
  rw [digitLen, if_neg (by omega)]
  rw [digitLen, if_neg (by omega)]
  rw [digitLen, if_neg (by omega)]
  have : 1 ≤ digitLen (n / 10 / 10 / 10) := by
    rw [digitLen]
    split <;> omega
  omega

/-- Years at or above 1000 serialize to at least four characters. -/
theorem digitLenZ_ge_four (z : ℤ) (h : 1000 ≤ z) : 4 ≤ digitLenZ z := by
  rw [digitLenZ, if_neg (by linarith)]
  have habs : (1000 : ℕ) ≤ z.natAbs := by
    have h2 : (1000 : ℤ) ≤ (z.natAbs : ℤ) := le_trans h (Int.le_natAbs)
    exact_mod_cast h2
  have := digitLen_ge_four z.natAbs habs
  omega

/-- For years at or above 1000 the unpadded `toKey` serialization coincides
with the aggregator's 4-digit-padded canonical key. -/
theorem toKey_eq_aggKey (c : Civil) (hy : 1000 ≤ c.year) : toKey c = aggKey c := by
  rw [toKey, aggKey, rawField, padField4, max_eq_right (digitLenZ_ge_four _ hy)]

/-- The shift/unshift pipeline, evaluated: for offsets 0 and −1 it returns
the `toKey` (unpadded-year) serialization of the original date. -/
theorem roundtrip_toKey (c : Civil) (hv : c.isValid) (hy : 100 ≤ c.year) :
    roundtripKey (aggKey c) 0 = some (toKey c)
    ∧ (100 ≤ (prevDay c).year → roundtripKey (aggKey c) (-1) = some (toKey c)) := by
  have hadd0 : addDaysCivil c 0 = c := by
    rw [addDaysCivil, if_pos (le_refl 0)]
    rfl
  constructor
  · rw [roundtripKey, shiftedKey, parse_of_valid c hv hy (aggKey c) rfl rfl rfl]
    rw [Option.map_some', Option.some_bind]
    rw [hadd0, unshiftKey, parse_of_valid c hv hy (toKey c) rfl rfl rfl]
    rw [Option.map_some']
    rw [show -(0:ℤ) = 0 from rfl, hadd0]
  · intro hyp
    have haddm : addDaysCivil c (-1) = prevDay c := by
      rw [addDaysCivil, if_neg (by norm_num)]
      rfl
    have haddp : addDaysCivil (prevDay c) (- -1) = c := by
      rw [addDaysCivil, if_pos (by norm_num)]
      show nextDay^[(1:ℤ).toNat] (prevDay c) = c
      rw [show (1:ℤ).toNat = 1 from rfl, Function.iterate_one]
      exact nextDay_prevDay c hv
    rw [roundtripKey, shiftedKey, parse_of_valid c hv hy (aggKey c) rfl rfl rfl]
    rw [Option.map_some', Option.some_bind]
    rw [haddm, unshiftKey,
      parse_of_valid (prevDay c) (prevDay_isValid c hv) hyp (toKey (prevDay c)) rfl rfl rfl]
    rw [Option.map_some']
    rw [haddp]

/-- C5 (amended): shifting every aggregated date by `offsetDays`,
re-serializing, then applying the inverse shift to the rendered date and
re-serializing recovers the original canonical key exactly, for offset 0 and
for offset −1, for every valid date whose own year and whose shifted date's
year are at least 1000 — the years whose unpadded `getFullYear()`
serialization coincides with the 4-digit-padded aggregator key.  (For years
100–999 the year comes back unpadded, and for years 0–99 the `Date`
constructor's two-digit-year rule moves the date to 1900+year.) -/
theorem C5_shift_unshift_roundtrip (c : Civil) (hv : c.isValid) (hy : 1000 ≤ c.year) :
    roundtripKey (aggKey c) 0 = some (aggKey c)
    ∧ (1000 ≤ (prevDay c).year → roundtripKey (aggKey c) (-1) = some (aggKey c)) := by
  have hy100 : 100 ≤ c.year := by linarith
  constructor
  · rw [(roundtrip_toKey c hv hy100).1, toKey_eq_aggKey c hy]
  · intro hyp
    rw [(roundtrip_toKey c hv hy100).2 (by linarith), toKey_eq_aggKey c hy]

/-- Witness for C5 at 2024-03-11 (Monday-start shift to 2024-03-10 and
back). -/
theorem C5_shift_unshift_roundtrip_witness :
    (Civil.isValid ⟨2024, 3, 11⟩ ∧ 1000 ≤ (⟨2024, 3, 11⟩ : Civil).year
      ∧ 1000 ≤ (prevDay ⟨2024, 3, 11⟩).year)
    ∧ roundtripKey (aggKey ⟨2024, 3, 11⟩) 0 = some (aggKey ⟨2024, 3, 11⟩)
    ∧ roundtripKey (aggKey ⟨2024, 3, 11⟩) (-1) = some (aggKey ⟨2024, 3, 11⟩) :=
  ⟨⟨by decide, by decide, by decide⟩,
   (C5_shift_unshift_roundtrip ⟨2024, 3, 11⟩ (by decide) (by decide)).1,
   (C5_shift_unshift_roundtrip ⟨2024, 3, 11⟩ (by decide) (by decide)).2 (by decide)⟩

/-- Three-digit numerals have `digitLen` 3. -/
theorem digitLen_500 : digitLen 500 = 3 := by
  rw [digitLen, if_neg (by norm_num), digitLen, if_neg (by norm_num),
    digitLen, if_pos (by norm_num)]

/-- C5 counterexample: the canonical key `0500/03/04` (year 500) roundtrips
to the UNPADDED key `500/03/04` — a different string — because `toKey` emits
`getFullYear()` without padding; and the key `0050/01/02` (year 50) parses
through `new Date(50, 0, 2)` as 1950-01-02 and comes back as `1950/01/02`. -/
theorem C5_counterexample :
    Civil.isValid ⟨500, 3, 4⟩
    ∧ roundtripKey (aggKey ⟨500, 3, 4⟩) 0 = some (toKey ⟨500, 3, 4⟩)
    ∧ aggKey ⟨500, 3, 4⟩ ≠ toKey ⟨500, 3, 4⟩
    ∧ Civil.isValid ⟨50, 1, 2⟩
    ∧ roundtripKey (aggKey ⟨50, 1, 2⟩) 0 = some (toKey ⟨1950, 1, 2⟩)
    ∧ aggKey ⟨50, 1, 2⟩ ≠ toKey ⟨1950, 1, 2⟩ := by
  have hv500 : Civil.isValid ⟨500, 3, 4⟩ := by decide
  have hv50 : Civil.isValid ⟨50, 1, 2⟩ := by decide
  have hv1950 : Civil.isValid ⟨1950, 1, 2⟩ := by decide
  refine ⟨hv500, ?_, ?_, hv50, ?_, ?_⟩
  · exact (roundtrip_toKey ⟨500, 3, 4⟩ hv500 (by norm_num)).1
  · intro heq
    have hlen : (aggKey ⟨500, 3, 4⟩).yf.len = (toKey ⟨500, 3, 4⟩).yf.len := by
      rw [heq]
    rw [show (aggKey ⟨500, 3, 4⟩).yf.len = max 4 (digitLenZ 500) from rfl,
      show (toKey ⟨500, 3, 4⟩).yf.len = digitLenZ 500 from rfl,
      show digitLenZ 500 = digitLen 500 from by
        rw [digitLenZ, if_neg (by norm_num)]; norm_num,
      digitLen_500] at hlen
    norm_num at hlen
  · have hparse50 : parseAnyYMD (aggKey ⟨50, 1, 2⟩) = some ⟨1950, 1, 2⟩ := by
      simp only [parseAnyYMD, aggKey, padField4, padField2]
      rw [show (if 0 ≤ ((⟨50, max 4 (digitLenZ 50)⟩ : NumField)).val
            ∧ ((⟨50, max 4 (digitLenZ 50)⟩ : NumField)).val ≤ 99
          then ((⟨50, max 4 (digitLenZ 50)⟩ : NumField)).val + 1900
          else ((⟨50, max 4 (digitLenZ 50)⟩ : NumField)).val) = 1950 from by
        rw [if_pos (by norm_num)]; norm_num]
      rw [if_pos (by norm_num [daysInMonth])]
    have hadd0 : addDaysCivil ⟨1950, 1, 2⟩ 0 = ⟨1950, 1, 2⟩ := by
      rw [addDaysCivil, if_pos (le_refl 0)]
      rfl
    rw [roundtripKey, shiftedKey, hparse50, Option.map_some', Option.some_bind]
    rw [hadd0, unshiftKey,
      parse_of_valid ⟨1950, 1, 2⟩ hv1950 (by norm_num) (toKey ⟨1950, 1, 2⟩) rfl rfl rfl]
    rw [Option.map_some']
    rw [show -(0:ℤ) = 0 from rfl, hadd0]
  · intro heq
    have hval : (aggKey ⟨50, 1, 2⟩).yf.val = (toKey ⟨1950, 1, 2⟩).yf.val := by
      rw [heq]
    rw [show (aggKey ⟨50, 1, 2⟩).yf.val = 50 from rfl,
      show (toKey ⟨1950, 1, 2⟩).yf.val = 1950 from rfl] at hval
    norm_num at hval
